import Mathlib

/-!
Verification of the camera-intrinsics calibration notebook
(`CameraCalibration_intrinsics_optimization.ipynb`).

The notebook recovers the intrinsic parameters (focal lengths and principal
point) of a pinhole camera by Levenberg-Marquardt minimization of
point-projection residuals.  The arithmetic of the notebook is embedded over
the rationals; the residual function, the rendering loop and the concrete
scene constants are translated from the notebook source, while the two
library routines the notebook calls (`perspective.project` and
`levenberg_marquardt.minimize` from tensorflow_graphics) are modelled from
the specification, as noted in their doc comments.  Definitions come first,
followed by the theorems.
-/

set_option maxRecDepth 100000

namespace CameraCalib

/-- A 2-vector of rationals: a 2D pixel position, a pair of focal lengths or
a principal point. -/
abbrev V2 := ℚ × ℚ

/-- A 3D point of the scene. -/
structure V3 where
  x : ℚ
  y : ℚ
  z : ℚ
  deriving DecidableEq

/-- Modelled from the spec: `perspective.project` comes from the external
tensorflow_graphics library and is not part of the repository source.  Per
the spec (section 4.3) it maps a 3D point together with a 2-vector of focal
lengths and a 2-vector of principal-point coordinates to 2D pixel
coordinates by perspective division. -/
def project (p : V3) (focal principal_point : V2) : V2 :=
  (focal.1 * p.x / p.z + principal_point.1, focal.2 * p.y / p.z + principal_point.2)

/-- Projection of a whole list of points, the shape in which the notebook
calls `perspective.project`. -/
def projectList (points : List V3) (focal principal_point : V2) : List V2 :=
  points.map (fun p => project p focal principal_point)

/-- The residual function of the notebook: the difference between the
projection of the rectangle vertices under the true intrinsics and their
projection under the estimated intrinsics, one 2D difference per vertex. -/
def residuals (rectangle_vertices : List V3)
    (real_focal_lengths real_principal_point : V2)
    (estimate_focal_lengths estimate_principal_point : V2) : List V2 :=
  let vertices_2d_gt :=
    projectList rectangle_vertices real_focal_lengths real_principal_point
  let vertices_2d_observed :=
    projectList rectangle_vertices estimate_focal_lengths estimate_principal_point
  List.zipWith (fun gt obs => (gt.1 - obs.1, gt.2 - obs.2))
    vertices_2d_gt vertices_2d_observed

/-- Depth of the rectangle in the notebook scene. -/
def rectangle_depth : ℚ := (1000 : ℚ)

/-- The two 3D corners of the rectangle set up by the notebook. -/
def rectangle_vertices : List V3 :=
  [⟨(-150 : ℚ), (-75 : ℚ), rectangle_depth⟩, ⟨(150 : ℚ), (75 : ℚ), rectangle_depth⟩]

/-- Width in pixels of the notebook image plane. -/
def image_width : ℚ := (400 : ℚ)

/-- Height in pixels of the notebook image plane. -/
def image_height : ℚ := (300 : ℚ)

/-- The notebook's default focal lengths, both set to the image height. -/
def focal_lengths : V2 := (image_height, image_height)

/-- The notebook's ideal principal point, the image center. -/
def ideal_principal_point : V2 := (image_width / (2 : ℚ), image_height / (2 : ℚ))

/-- The globals the notebook's `residuals` closes over: the rectangle and the
ground-truth intrinsics sampled by `build_parameters`. -/
structure NotebookEnv where
  rectangle_vertices : List V3
  real_focal_lengths : V2
  real_principal_point : V2
  deriving DecidableEq

/-- State-passing form of one evaluation of the notebook's `residuals`: the
body only reads the globals and applies pure arithmetic, so the evaluation
returns the value together with the unchanged globals. -/
def residualsRun (env : NotebookEnv)
    (estimate_focal_lengths estimate_principal_point : V2) :
    List V2 × NotebookEnv :=
  (residuals env.rectangle_vertices env.real_focal_lengths env.real_principal_point
     estimate_focal_lengths estimate_principal_point, env)

/-- The environment the notebook demo would hold with the ground truth fixed
at the default intrinsics. -/
def demo_env : NotebookEnv :=
  ⟨rectangle_vertices, ((300 : ℚ), (300 : ℚ)), ((200 : ℚ), (150 : ℚ))⟩

/-- A 4-vector of rationals: the flat parameter vector
(focal_x, focal_y, center_x, center_y), a residual-gradient row, or a
solution of the normal equations. -/
structure V4 where
  a : ℚ
  b : ℚ
  c : ℚ
  d : ℚ
  deriving DecidableEq

/-- Componentwise sum of two 4-vectors. -/
def V4.add (u v : V4) : V4 := ⟨u.a + v.a, u.b + v.b, u.c + v.c, u.d + v.d⟩

/-- Scalar multiple of a 4-vector. -/
def V4.smul (q : ℚ) (v : V4) : V4 := ⟨q * v.a, q * v.b, q * v.c, q * v.d⟩

/-- Dot product of two 4-vectors. -/
def V4.dot (u v : V4) : ℚ := u.a * v.a + u.b * v.b + u.c * v.c + u.d * v.d

/-- The zero 4-vector. -/
def V4.zero : V4 := ⟨0, 0, 0, 0⟩

/-- A 4 x 4 matrix of rationals, stored by rows. -/
structure M4 where
  r0 : V4
  r1 : V4
  r2 : V4
  r3 : V4
  deriving DecidableEq

/-- Componentwise sum of two 4 x 4 matrices. -/
def M4.add (m n : M4) : M4 :=
  ⟨m.r0.add n.r0, m.r1.add n.r1, m.r2.add n.r2, m.r3.add n.r3⟩

/-- The zero 4 x 4 matrix. -/
def M4.zero : M4 := ⟨V4.zero, V4.zero, V4.zero, V4.zero⟩

/-- The symmetric rank-one matrix g gᵀ contributed by one gradient row to
the Gauss-Newton approximate Hessian JᵀJ. -/
def outerSq (g : V4) : M4 :=
  ⟨⟨g.a * g.a, g.a * g.b, g.a * g.c, g.a * g.d⟩,
   ⟨g.b * g.a, g.b * g.b, g.b * g.c, g.b * g.d⟩,
   ⟨g.c * g.a, g.c * g.b, g.c * g.c, g.c * g.d⟩,
   ⟨g.d * g.a, g.d * g.b, g.d * g.c, g.d * g.d⟩⟩

/-- JᵀJ from the list of gradient rows of the Jacobian. -/
def jtj (rows : List V4) : M4 :=
  rows.foldr (fun g acc => M4.add (outerSq g) acc) M4.zero

/-- Jᵀ r from the gradient rows of the Jacobian and the residual vector. -/
def jtr (rows : List V4) (r : List ℚ) : V4 :=
  (List.zipWith V4.smul r rows).foldr V4.add V4.zero

/-- The damped normal-equations matrix JᵀJ + λ diag(JᵀJ) of the spec:
λ scales the diagonal of the approximate Hessian. -/
def damped (m : M4) (lam : ℚ) : M4 :=
  ⟨⟨m.r0.a * (1 + lam), m.r0.b, m.r0.c, m.r0.d⟩,
   ⟨m.r1.a, m.r1.b * (1 + lam), m.r1.c, m.r1.d⟩,
   ⟨m.r2.a, m.r2.b, m.r2.c * (1 + lam), m.r2.d⟩,
   ⟨m.r3.a, m.r3.b, m.r3.c, m.r3.d * (1 + lam)⟩⟩

/-- Determinant of a 3 x 3 matrix given by entries. -/
def det3 (a b c d e f g h i : ℚ) : ℚ :=
  a * (e * i - f * h) - b * (d * i - f * g) + c * (d * h - e * g)

/-- Determinant of a 4 x 4 matrix, by expansion along the first row. -/
def M4.det (m : M4) : ℚ :=
  m.r0.a * det3 m.r1.b m.r1.c m.r1.d m.r2.b m.r2.c m.r2.d m.r3.b m.r3.c m.r3.d
    - m.r0.b * det3 m.r1.a m.r1.c m.r1.d m.r2.a m.r2.c m.r2.d m.r3.a m.r3.c m.r3.d
    + m.r0.c * det3 m.r1.a m.r1.b m.r1.d m.r2.a m.r2.b m.r2.d m.r3.a m.r3.b m.r3.d
    - m.r0.d * det3 m.r1.a m.r1.b m.r1.c m.r2.a m.r2.b m.r2.c m.r3.a m.r3.b m.r3.c

/-- Replace the first column of a 4 x 4 matrix by a vector. -/
def M4.setCol0 (m : M4) (v : V4) : M4 :=
  ⟨⟨v.a, m.r0.b, m.r0.c, m.r0.d⟩, ⟨v.b, m.r1.b, m.r1.c, m.r1.d⟩,
   ⟨v.c, m.r2.b, m.r2.c, m.r2.d⟩, ⟨v.d, m.r3.b, m.r3.c, m.r3.d⟩⟩

/-- Replace the second column of a 4 x 4 matrix by a vector. -/
def M4.setCol1 (m : M4) (v : V4) : M4 :=
  ⟨⟨m.r0.a, v.a, m.r0.c, m.r0.d⟩, ⟨m.r1.a, v.b, m.r1.c, m.r1.d⟩,
   ⟨m.r2.a, v.c, m.r2.c, m.r2.d⟩, ⟨m.r3.a, v.d, m.r3.c, m.r3.d⟩⟩

/-- Replace the third column of a 4 x 4 matrix by a vector. -/
def M4.setCol2 (m : M4) (v : V4) : M4 :=
  ⟨⟨m.r0.a, m.r0.b, v.a, m.r0.d⟩, ⟨m.r1.a, m.r1.b, v.b, m.r1.d⟩,
   ⟨m.r2.a, m.r2.b, v.c, m.r2.d⟩, ⟨m.r3.a, m.r3.b, v.d, m.r3.d⟩⟩

/-- Replace the fourth column of a 4 x 4 matrix by a vector. -/
def M4.setCol3 (m : M4) (v : V4) : M4 :=
  ⟨⟨m.r0.a, m.r0.b, m.r0.c, v.a⟩, ⟨m.r1.a, m.r1.b, m.r1.c, v.b⟩,
   ⟨m.r2.a, m.r2.b, m.r2.c, v.c⟩, ⟨m.r3.a, m.r3.b, m.r3.c, v.d⟩⟩

/-- Exact linear solve of a 4 x 4 system by Cramer's rule; `none` when the
matrix is singular, which the solver treats as a rejected step. -/
def solve4 (m : M4) (rhs : V4) : Option V4 :=
  let dt := m.det
  if dt = 0 then none
  else some ⟨(m.setCol0 rhs).det / dt, (m.setCol1 rhs).det / dt,
             (m.setCol2 rhs).det / dt, (m.setCol3 rhs).det / dt⟩

/-- Sum of squares of a residual vector. -/
def sumSq : List ℚ → ℚ
  | [] => 0
  | q :: rest => q * q + sumSq rest

/-- The cost of a residual vector, half the sum of squared residuals as in
step 1 of the spec's algorithm. -/
def costOf (r : List ℚ) : ℚ := sumSq r / 2

/-- The Levenberg-Marquardt solver state: current flat parameter vector, its
cost, and the damping factor λ. -/
structure LMState where
  params : V4
  cost : ℚ
  lam : ℚ
  deriving DecidableEq

/-- The tentative step of one iteration: solve the damped normal equations
(JᵀJ + λ diag(JᵀJ)) Δ = -Jᵀ r at the current parameters. -/
def lmTentative (f : V4 → List ℚ) (jf : V4 → List V4) (s : LMState) : Option V4 :=
  solve4 (damped (jtj (jf s.params)) s.lam)
    (V4.smul (-1) (jtr (jf s.params) (f s.params)))

/-- One outer iteration of the solver, following steps 3-6 of the spec's
algorithm: solve for the tentative step, accept it when the new cost is
strictly smaller (dividing λ by 10), otherwise keep the parameters and
multiply λ by 10; a singular system is treated as a rejected step.  The
returned flag records whether the step was accepted. -/
def lmAttempt (f : V4 → List ℚ) (jf : V4 → List V4) (s : LMState) :
    LMState × Bool :=
  match lmTentative f jf s with
  | none => (⟨s.params, s.cost, 10 * s.lam⟩, false)
  | some dp =>
    if costOf (f (s.params.add dp)) < s.cost then
      (⟨s.params.add dp, costOf (f (s.params.add dp)), s.lam / 10⟩, true)
    else
      (⟨s.params, s.cost, 10 * s.lam⟩, false)

/-- The state after one outer iteration. -/
def lmStep (f : V4 → List ℚ) (jf : V4 → List V4) (s : LMState) : LMState :=
  (lmAttempt f jf s).1

/-- The state after `n` outer iterations. -/
def lmRun (f : V4 → List ℚ) (jf : V4 → List V4) : ℕ → LMState → LMState
  | 0, s => s
  | n + 1, s => lmStep f jf (lmRun f jf n s)

/-- The caller-facing grouped parameters: a 2-tuple of a focal-lengths
2-vector and a principal-point 2-vector. -/
abbrev Params := V2 × V2

/-- Concatenate the parameter groups into the flat vector the solver's
linear algebra operates on (spec section 9). -/
def flattenParams (p : Params) : V4 := ⟨p.1.1, p.1.2, p.2.1, p.2.2⟩

/-- Split the flat parameter vector back into the caller's groups. -/
def unflattenParams (v : V4) : Params := ((v.a, v.b), (v.c, v.d))

/-- Modelled from the spec: `levenberg_marquardt.minimize` comes from the
external tensorflow_graphics library and is not part of the repository
source.  It is modelled from the algorithm of spec section 4.1, with the
implementation choices the spec leaves open fixed as follows: the initial
damping factor is 1/1000, each outer iteration makes one tentative step
(inner retry bound 1), a singular normal-equations system rejects the step,
and the solver stops exactly when the iteration budget is reached.  The
Jacobian, which the original obtains by automatic differentiation of the
residual function, is an injected argument as the spec's section 9 directs
(Jacobian computation as a pluggable strategy). -/
def levenberg_marquardt.minimize (residual_fn : Params → List ℚ)
    (jacobian_fn : Params → List V4) (initial_params : Params)
    (num_iterations : ℕ) : ℚ × Params :=
  let f := fun v => residual_fn (unflattenParams v)
  let jf := fun v => jacobian_fn (unflattenParams v)
  let s0 : LMState :=
    ⟨flattenParams initial_params,
     costOf (f (flattenParams initial_params)), 1/1000⟩
  let s := lmRun f jf num_iterations s0
  (s.cost, unflattenParams s.params)

/-- State-passing form of the notebook's optimization call: the caller's
parameter storage is passed in, the result pair is computed by the pure
solver, and the call hands back the caller-owned storage it received. -/
def minimizeRun (residual_fn : Params → List ℚ) (jacobian_fn : Params → List V4)
    (caller_params : Params) (num_iterations : ℕ) : (ℚ × Params) × Params :=
  (levenberg_marquardt.minimize residual_fn jacobian_fn caller_params
    num_iterations, caller_params)

/-- Flatten the list of 2D residual differences into the flat residual
vector the solver consumes: [u1, v1, u2, v2, ...]. -/
def flatten2 : List V2 → List ℚ
  | [] => []
  | p :: rest => p.1 :: p.2 :: flatten2 rest

/-- Modelled from the spec: the original obtains the Jacobian of the
residual function by automatic differentiation through the residual; the
spec's section 9 directs a systems reimplementation to use the explicit
analytic derivative of the closed-form projection instead.  For the vertex
(X, Y, Z) the residual rows are the u-row and the v-row with gradients
(-X/Z, 0, -1, 0) and (0, -Y/Z, 0, -1) with respect to
(focal_x, focal_y, center_x, center_y); `residuals_are_affine` below proves
these are exact. -/
def camera_jacobian_rows : List V3 → List V4
  | [] => []
  | p :: rest =>
    ⟨-(p.x / p.z), 0, -1, 0⟩ :: ⟨0, -(p.y / p.z), 0, -1⟩ ::
      camera_jacobian_rows rest

/-- Componentwise sum of two flat residual vectors. -/
def addList : List ℚ → List ℚ → List ℚ := List.zipWith (· + ·)

/-- Matrix-vector product of a list of gradient rows with a 4-vector. -/
def mulRows (rows : List V4) (v : V4) : List ℚ := rows.map (fun g => g.dot v)

/-- The residual function of the notebook demo scenario, with ground truth
fixed at the default intrinsics, flattened for the solver. -/
def demo_residual_fn (p : Params) : List ℚ :=
  flatten2 (residuals rectangle_vertices ((300 : ℚ), (300 : ℚ))
    ((200 : ℚ), (150 : ℚ)) p.1 p.2)

/-- The injected Jacobian strategy of the demo scenario; the gradient rows
do not depend on the current estimate because the residual is affine. -/
def demo_jacobian_fn (_p : Params) : List V4 :=
  camera_jacobian_rows rectangle_vertices

/-- The demo's initial estimate: the truth offset by (+50, -50) in the focal
lengths and (+20, -20) in the principal point. -/
def demo_initial : Params := (((350 : ℚ), (250 : ℚ)), ((220 : ℚ), (130 : ℚ)))

/-- The demo residual function on flat parameter vectors. -/
def demo_f (v : V4) : List ℚ := demo_residual_fn (unflattenParams v)

/-- The demo Jacobian strategy on flat parameter vectors. -/
def demo_jf (_v : V4) : List V4 := camera_jacobian_rows rectangle_vertices

/-- The initial solver state of the demo scenario. -/
def demo_state0 : LMState :=
  ⟨flattenParams demo_initial, costOf (demo_f (flattenParams demo_initial)),
   1/1000⟩

/-- The outcome of the notebook's optimization in the concrete scenario of
the spec, run for 30 outer iterations. -/
def demo_result : ℚ × Params :=
  levenberg_marquardt.minimize demo_residual_fn demo_jacobian_fn demo_initial 30

/-- Truncation toward zero of a rational, the behaviour of numpy's
`astype(int)` applied by `render_rectangle` to the clamped corners. -/
def truncQ (q : ℚ) : ℤ := if 0 ≤ q then ⌊q⌋ else ⌈q⌉

/-- Consecutive integers starting at `lo`, of the given length. -/
def intRangeAux (lo : ℤ) : ℕ → List ℤ
  | 0 => []
  | n + 1 => lo :: intRangeAux (lo + 1) n

/-- The list of integers from `lo` to `hi` inclusive, the iteration space of
one of the Python `range` loops. -/
def intRange (lo hi : ℤ) : List ℤ := intRangeAux lo (hi + 1 - lo).toNat

/-- The x coordinate of `top_left_corner` in `render_rectangle`: the first
projected vertex clamped below by 0, truncated to an integer. -/
def render_tlx (rv0 : V3) (focal pp : V2) : ℤ :=
  truncQ (max (project rv0 focal pp).1 0)

/-- The y coordinate of `top_left_corner` in `render_rectangle`. -/
def render_tly (rv0 : V3) (focal pp : V2) : ℤ :=
  truncQ (max (project rv0 focal pp).2 0)

/-- The x coordinate of `bottom_right_corner` in `render_rectangle`: the
second projected vertex clamped above by `image_dimensions[1] - 1`,
truncated to an integer. -/
def render_brx (rv1 : V3) (focal pp : V2) (dims : ℚ × ℚ) : ℤ :=
  truncQ (min (project rv1 focal pp).1 (dims.2 - 1))

/-- The y coordinate of `bottom_right_corner` in `render_rectangle`, clamped
above by `image_dimensions[0] - 1`. -/
def render_bry (rv1 : V3) (focal pp : V2) (dims : ℚ × ℚ) : ℤ :=
  truncQ (min (project rv1 focal pp).2 (dims.1 - 1))

/-- One pixel write `image[y, x] = (c1, c2, 1)` performed by the
rasterization loop of `render_rectangle`. -/
structure RWrite where
  x : ℤ
  y : ℤ
  c1 : ℚ
  c2 : ℚ
  deriving DecidableEq

/-- The complete sequence of pixel writes performed by the nested loops of
`render_rectangle`: x runs from the truncated clamped top-left corner to the
truncated clamped bottom-right corner inclusive, y likewise, and each write
carries the two interpolation quotients of the loop body. -/
def render_rectangle_writes (rv0 rv1 : V3) (focal pp : V2) (dims : ℚ × ℚ) :
    List RWrite :=
  let tlx := render_tlx rv0 focal pp
  let tly := render_tly rv0 focal pp
  let brx := render_brx rv1 focal pp dims
  let bry := render_bry rv1 focal pp dims
  (intRange tlx brx).foldr (fun x acc =>
    (intRange tly bry).map (fun y =>
      ⟨x, y, ((brx : ℚ) + 1 - (x : ℚ)) / ((brx : ℚ) + 1 - (tlx : ℚ)),
        ((bry : ℚ) + 1 - (y : ℚ)) / ((bry : ℚ) + 1 - (tly : ℚ))⟩) ++ acc) []

/-- The image dimensions of the safety witness scenario. -/
def wit_dims : ℚ × ℚ := ((2 : ℚ), (3 : ℚ))

/-- The pixel write of the safety witness scenario. -/
def wit_write : RWrite := ⟨0, 0, 1, 1⟩

/-- First rectangle corner of the safety witness scenario. -/
def wit_v0 : V3 := ⟨0, 0, 1⟩

/-- Second rectangle corner of the safety witness scenario. -/
def wit_v1 : V3 := ⟨1, 1, 1⟩

/-- C2: the camera-calibration residual function returns exactly the
difference between the projection of the rectangle vertices under the true
intrinsics and their projection under the estimated intrinsics. -/
theorem residuals_eq_projection_difference (rv : List V3)
    (real_focal real_pp est_focal est_pp : V2) :
    residuals rv real_focal real_pp est_focal est_pp =
      List.zipWith (fun gt obs => (gt.1 - obs.1, gt.2 - obs.2))
        (projectList rv real_focal real_pp) (projectList rv est_focal est_pp) := rfl

/-- C3: for a 3D point with strictly positive depth, the projection function
returns the pixel coordinates u = f_x * X/Z + c_x and v = f_y * Y/Z + c_y. -/
theorem project_pixel_coordinates (X Y Z fx fy cx cy : ℚ) (h : 0 < Z) :
    project ⟨X, Y, Z⟩ (fx, fy) (cx, cy) = (fx * X / Z + cx, fy * Y / Z + cy) := rfl

/-- Witness for C3 at the second rectangle vertex and the notebook's default
intrinsics. -/
theorem project_pixel_coordinates_witness :
    (0 : ℚ) < (1000 : ℚ) ∧
      project ⟨(150 : ℚ), (75 : ℚ), (1000 : ℚ)⟩ ((300 : ℚ), (300 : ℚ)) ((200 : ℚ), (150 : ℚ)) =
        ((300 : ℚ) * (150 : ℚ) / (1000 : ℚ) + (200 : ℚ), (300 : ℚ) * (75 : ℚ) / (1000 : ℚ) + (150 : ℚ)) :=
  ⟨by decide, project_pixel_coordinates ((150 : ℚ)) ((75 : ℚ)) ((1000 : ℚ)) ((300 : ℚ)) ((300 : ℚ))
    ((200 : ℚ)) ((150 : ℚ)) (by decide)⟩

/-- C7: the residual function instantiated with the notebook's rectangle has
a known zero at the true parameters, whatever ground-truth intrinsics
`build_parameters` sampled. -/
theorem residuals_zero_at_true_params (real_focal real_pp : V2) :
    residuals rectangle_vertices real_focal real_pp real_focal real_pp =
      [((0 : ℚ), (0 : ℚ)), ((0 : ℚ), (0 : ℚ))] := by
  simp [residuals, projectList, rectangle_vertices, project]

/-- C8: the residual function is pure and deterministic: two evaluations on
identical focal-length and principal-point arguments, with the enclosing
ground-truth globals fixed, return identical residual vectors, and the
evaluation leaves the globals unchanged. -/
theorem residuals_pure_deterministic (env : NotebookEnv) (f1 c1 f2 c2 : V2)
    (hf : f1 = f2) (hc : c1 = c2) :
    (residualsRun env f1 c1).1 = (residualsRun env f2 c2).1 ∧
      (residualsRun env f1 c1).2 = env := by
  subst hf; subst hc; exact ⟨rfl, rfl⟩

/-- Witness for C8 at a concrete estimate. -/
theorem residuals_pure_deterministic_witness :
    (((350 : ℚ), (250 : ℚ)) : V2) = (((350 : ℚ), (250 : ℚ)) : V2) ∧
      (((220 : ℚ), (130 : ℚ)) : V2) = (((220 : ℚ), (130 : ℚ)) : V2) ∧
      ((residualsRun demo_env ((350 : ℚ), (250 : ℚ)) ((220 : ℚ), (130 : ℚ))).1 =
          (residualsRun demo_env ((350 : ℚ), (250 : ℚ)) ((220 : ℚ), (130 : ℚ))).1 ∧
        (residualsRun demo_env ((350 : ℚ), (250 : ℚ)) ((220 : ℚ), (130 : ℚ))).2 = demo_env) :=
  ⟨rfl, rfl, residuals_pure_deterministic demo_env ((350 : ℚ), (250 : ℚ)) ((220 : ℚ), (130 : ℚ))
    ((350 : ℚ), (250 : ℚ)) ((220 : ℚ), (130 : ℚ)) rfl rfl⟩

/-- One iteration keeps the state's cost equal to the cost of the state's
parameters. -/
theorem lmStep_cost_eq (f : V4 → List ℚ) (jf : V4 → List V4) (s : LMState)
    (h : s.cost = costOf (f s.params)) :
    (lmStep f jf s).cost = costOf (f (lmStep f jf s).params) := by
  unfold lmStep lmAttempt
  cases lmTentative f jf s with
  | none => simpa using h
  | some dp =>
    by_cases hc : costOf (f (s.params.add dp)) < s.cost
    · simp [hc]
    · simpa [hc] using h

/-- Any number of iterations keeps the state's cost equal to the cost of the
state's parameters. -/
theorem lmRun_cost_eq (f : V4 → List ℚ) (jf : V4 → List V4) (n : ℕ)
    (s : LMState) (h : s.cost = costOf (f s.params)) :
    (lmRun f jf n s).cost = costOf (f (lmRun f jf n s).params) := by
  induction n with
  | zero => exact h
  | succ n ih => exact lmStep_cost_eq f jf (lmRun f jf n s) ih

/-- C1: for every residual function, Jacobian strategy, initial parameter
groups and iteration count, `minimize` returns a pair whose first component
is the scalar cost (half the squared norm of the residuals) at the returned
parameters, and whose second component has the grouped shape of the input:
a 2-tuple of a focal-lengths 2-vector and a principal-point 2-vector. -/
theorem minimize_final_cost_and_shape (residual_fn : Params → List ℚ)
    (jacobian_fn : Params → List V4) (initial_params : Params)
    (num_iterations : ℕ) :
    (levenberg_marquardt.minimize residual_fn jacobian_fn initial_params
        num_iterations).1 =
      costOf (residual_fn (levenberg_marquardt.minimize residual_fn jacobian_fn
        initial_params num_iterations).2) ∧
    ∃ focal principal_point : V2,
      (levenberg_marquardt.minimize residual_fn jacobian_fn initial_params
        num_iterations).2 = (focal, principal_point) :=
  ⟨lmRun_cost_eq _ _ num_iterations _ rfl, _, _, rfl⟩

/-- C5: zero iterations returns the initial parameters unchanged together
with their original cost. -/
theorem minimize_zero_iterations (residual_fn : Params → List ℚ)
    (jacobian_fn : Params → List V4) (initial_params : Params) :
    levenberg_marquardt.minimize residual_fn jacobian_fn initial_params 0 =
      (costOf (residual_fn initial_params), initial_params) := by
  obtain ⟨⟨a, b⟩, c, d⟩ := initial_params
  rfl

/-- C9: calling minimize has no side effect beyond returning new values: the
caller-owned parameter storage passed in is handed back unchanged, and the
refined parameters reach the caller only through the returned value, which
is the pure solver applied to the inputs. -/
theorem minimize_no_mutation (residual_fn : Params → List ℚ)
    (jacobian_fn : Params → List V4) (caller_params : Params)
    (num_iterations : ℕ) :
    (minimizeRun residual_fn jacobian_fn caller_params num_iterations).2 =
        caller_params ∧
      (minimizeRun residual_fn jacobian_fn caller_params num_iterations).1 =
        levenberg_marquardt.minimize residual_fn jacobian_fn caller_params
          num_iterations :=
  ⟨rfl, rfl⟩

/-- An accepted tentative step strictly decreases the stored cost. -/
theorem lmAttempt_accepted_cost_le (f : V4 → List ℚ) (jf : V4 → List V4)
    (s : LMState) (h : (lmAttempt f jf s).2 = true) :
    (lmAttempt f jf s).1.cost ≤ s.cost := by
  unfold lmAttempt at h ⊢
  rcases hT : lmTentative f jf s with _ | dp
  · simp only [hT] at h
    simp at h
  · simp only [hT] at h ⊢
    by_cases hc : costOf (f (s.params.add dp)) < s.cost
    · rw [if_pos hc]
      exact le_of_lt hc
    · rw [if_neg hc] at h
      simp at h

/-- C4: across the Levenberg-Marquardt loop, whenever the step of iteration
k+1 is accepted, the cost after iteration k+1 is at most the cost after
iteration k: cost is monotonically non-increasing on accepted steps. -/
theorem lm_cost_monotone_accepted (f : V4 → List ℚ) (jf : V4 → List V4)
    (s0 : LMState) (k : ℕ)
    (h : (lmAttempt f jf (lmRun f jf k s0)).2 = true) :
    (lmRun f jf (k + 1) s0).cost ≤ (lmRun f jf k s0).cost :=
  lmAttempt_accepted_cost_le f jf (lmRun f jf k s0) h

unseal Rat.add Rat.mul Rat.inv Rat.sub in
/-- Witness for C4: in the demo scenario the very first step is accepted and
the cost after iteration 1 is at most the cost after iteration 0. -/
theorem lm_cost_monotone_accepted_witness :
    (lmAttempt demo_f demo_jf (lmRun demo_f demo_jf 0 demo_state0)).2 = true ∧
      (lmRun demo_f demo_jf 1 demo_state0).cost ≤
        (lmRun demo_f demo_jf 0 demo_state0).cost :=
  ⟨by decide, lm_cost_monotone_accepted demo_f demo_jf demo_state0 0 (by decide)⟩

/-- The camera-calibration residual function is affine in the flat
parameter vector with `camera_jacobian_rows` as its exact Jacobian: shifting
the parameters by dp shifts the flat residual vector by J dp. -/
theorem residuals_are_affine (points : List V3) (true_focal true_pp : V2)
    (p dp : V4) :
    flatten2 (residuals points true_focal true_pp
        (unflattenParams (p.add dp)).1 (unflattenParams (p.add dp)).2) =
      addList
        (flatten2 (residuals points true_focal true_pp
          (unflattenParams p).1 (unflattenParams p).2))
        (mulRows (camera_jacobian_rows points) dp) := by
  induction points with
  | nil => rfl
  | cons q rest ih =>
    simp only [residuals, projectList, List.map_cons, List.zipWith_cons_cons,
      flatten2, camera_jacobian_rows, mulRows, addList, V4.add, V4.dot,
      unflattenParams, project, List.cons.injEq] at ih ⊢
    refine ⟨by ring, by ring, ?_⟩
    exact ih

unseal Rat.add Rat.mul Rat.inv Rat.sub in
/-- C6: in the concrete scenario (rectangle corners (-150,-75,1000) and
(150,75,1000), true focal lengths (300,300), true principal point (200,150),
initial estimate offset by (+50,-50) and (+20,-20)), within 30 iterations
the solver recovers the focal lengths and the principal point to within
1/100 of the true values and drives every residual component to within
1/1000000 of zero. -/
theorem demo_converges_to_true_intrinsics :
    |(demo_result.2.1.1 - 300 : ℚ)| < 1/100 ∧
      |(demo_result.2.1.2 - 300 : ℚ)| < 1/100 ∧
      |(demo_result.2.2.1 - 200 : ℚ)| < 1/100 ∧
      |(demo_result.2.2.2 - 150 : ℚ)| < 1/100 ∧
      ∀ r ∈ demo_residual_fn demo_result.2, |r| < 1/1000000 := by decide

/-- Membership in a block of consecutive integers gives the two bounds. -/
theorem mem_intRangeAux : ∀ (n : ℕ) (lo x : ℤ), x ∈ intRangeAux lo n →
    lo ≤ x ∧ x < lo + (n : ℤ) := by
  intro n
  induction n with
  | zero => intro lo x h; simp [intRangeAux] at h
  | succ n ih =>
    intro lo x h
    simp only [intRangeAux, List.mem_cons] at h
    rcases h with rfl | h
    · refine ⟨le_refl x, ?_⟩
      omega
    · obtain ⟨h1, h2⟩ := ih (lo + 1) x h
      constructor <;> omega

/-- Membership in an integer range gives the two inclusive bounds. -/
theorem mem_intRange {lo hi x : ℤ} (h : x ∈ intRange lo hi) :
    lo ≤ x ∧ x ≤ hi := by
  unfold intRange at h
  obtain ⟨h1, h2⟩ := mem_intRangeAux _ _ _ h
  omega

/-- Membership in a fold of appended blocks comes from one of the blocks. -/
theorem mem_foldr_append {α β : Type} (g : α → List β) (l : List α) (w : β)
    (h : w ∈ l.foldr (fun x acc => g x ++ acc) []) : ∃ x ∈ l, w ∈ g x := by
  induction l with
  | nil => simp at h
  | cons a rest ih =>
    simp only [List.foldr_cons, List.mem_append] at h
    rcases h with h | h
    · exact ⟨a, List.mem_cons_self a rest, h⟩
    · obtain ⟨x, hx, hw⟩ := ih h
      exact ⟨x, List.mem_cons_of_mem a hx, hw⟩

/-- Truncation toward zero of a nonnegative rational is its floor. -/
theorem truncQ_of_nonneg {q : ℚ} (h : 0 ≤ q) : truncQ q = ⌊q⌋ := if_pos h

/-- Truncation toward zero of a negative rational is its ceiling. -/
theorem truncQ_of_neg {q : ℚ} (h : q < 0) : truncQ q = ⌈q⌉ :=
  if_neg (not_le.mpr h)

/-- Truncation toward zero preserves nonnegativity. -/
theorem truncQ_nonneg {q : ℚ} (h : 0 ≤ q) : 0 ≤ truncQ q := by
  rw [truncQ_of_nonneg h]
  exact Int.floor_nonneg.mpr h

/-- Truncation toward zero respects an integer upper bound. -/
theorem truncQ_le_intCast {q : ℚ} {n : ℤ} (h : q ≤ (n : ℚ)) : truncQ q ≤ n := by
  unfold truncQ
  split
  · calc ⌊q⌋ ≤ ⌊((n : ℤ) : ℚ)⌋ := Int.floor_le_floor h
      _ = n := Int.floor_intCast n
  · exact Int.ceil_le.mpr h

/-- When the dimension is at least 1, the truncated clamped bottom-right
coordinate stays at least one pixel inside the allocated extent. -/
theorem trunc_min_le (q d : ℚ) (h1 : 1 ≤ d) :
    truncQ (min q (d - 1)) ≤ truncQ d - 1 := by
  have hd0 : (0 : ℚ) ≤ d := le_trans zero_le_one h1
  rw [truncQ_of_nonneg hd0]
  rcases le_or_lt 0 (min q (d - 1)) with hm | hm
  · rw [truncQ_of_nonneg hm]
    have hmono : ⌊min q (d - 1)⌋ ≤ ⌊d - 1⌋ := Int.floor_le_floor (min_le_right _ _)
    have hsub : ⌊d - (1 : ℚ)⌋ = ⌊d⌋ - 1 := by
      rw [show (1 : ℚ) = ((1 : ℤ) : ℚ) by norm_num, Int.floor_sub_int]
    omega
  · rw [truncQ_of_neg hm]
    have h1f : (1 : ℤ) ≤ ⌊d⌋ := Int.le_floor.mpr (by exact_mod_cast h1)
    have hc : ⌈min q (d - 1)⌉ ≤ 0 := Int.ceil_le.mpr (by push_cast; linarith)
    omega

/-- When the dimension is nonpositive, the truncated clamped bottom-right
coordinate is negative, so the loop is empty. -/
theorem trunc_min_le_neg (q d : ℚ) (hd : d ≤ 0) :
    truncQ (min q (d - 1)) ≤ -1 := by
  have hle : min q (d - 1) ≤ ((-1 : ℤ) : ℚ) := by
    have hstep : d - 1 ≤ -1 := by linarith
    exact le_trans (min_le_right _ _) (by push_cast; linarith)
  exact truncQ_le_intCast hle

/-- C10 amended: for every input whose image dimensions do not lie strictly
between 0 and 1, every pixel write of the rasterization loop satisfies
0 ≤ x ≤ int(image_dimensions[1]) - 1 and 0 ≤ y ≤ int(image_dimensions[0]) - 1,
so indexing stays within the allocated image, and both interpolation
denominators are at least 1 whenever the loop body executes. -/
theorem render_rectangle_writes_safe (rv0 rv1 : V3) (focal pp : V2)
    (dims : ℚ × ℚ) (hW : dims.2 ≤ 0 ∨ 1 ≤ dims.2)
    (hH : dims.1 ≤ 0 ∨ 1 ≤ dims.1) (w : RWrite)
    (hw : w ∈ render_rectangle_writes rv0 rv1 focal pp dims) :
    (0 ≤ w.x ∧ w.x ≤ truncQ dims.2 - 1 ∧ 0 ≤ w.y ∧ w.y ≤ truncQ dims.1 - 1) ∧
      1 ≤ render_brx rv1 focal pp dims + 1 - render_tlx rv0 focal pp ∧
      1 ≤ render_bry rv1 focal pp dims + 1 - render_tly rv0 focal pp := by
  simp only [render_rectangle_writes] at hw
  obtain ⟨x, hx, hw2⟩ := mem_foldr_append _ _ _ hw
  simp only [List.mem_map] at hw2
  obtain ⟨y, hy, rfl⟩ := hw2
  obtain ⟨hx1, hx2⟩ := mem_intRange hx
  obtain ⟨hy1, hy2⟩ := mem_intRange hy
  have htlx : 0 ≤ render_tlx rv0 focal pp := truncQ_nonneg (le_max_right _ 0)
  have htly : 0 ≤ render_tly rv0 focal pp := truncQ_nonneg (le_max_right _ 0)
  have hbx : render_brx rv1 focal pp dims ≤ truncQ dims.2 - 1 := by
    rcases hW with hW | hW
    · have hneg : render_brx rv1 focal pp dims ≤ -1 :=
        trunc_min_le_neg (project rv1 focal pp).1 dims.2 hW
      omega
    · exact trunc_min_le _ _ hW
  have hby : render_bry rv1 focal pp dims ≤ truncQ dims.1 - 1 := by
    rcases hH with hH | hH
    · have hneg : render_bry rv1 focal pp dims ≤ -1 :=
        trunc_min_le_neg (project rv1 focal pp).2 dims.1 hH
      omega
    · exact trunc_min_le _ _ hH
  dsimp only
  refine ⟨⟨?_, ?_, ?_, ?_⟩, ?_, ?_⟩ <;> omega

unseal Rat.add Rat.mul Rat.inv Rat.sub in
/-- Witness for amended C10: a concrete 2 x 3 image in which the loop body
executes and every write obeys the bounds. -/
theorem render_rectangle_writes_safe_witness :
    (wit_dims.2 ≤ 0 ∨ 1 ≤ wit_dims.2) ∧ (wit_dims.1 ≤ 0 ∨ 1 ≤ wit_dims.1) ∧
      wit_write ∈ render_rectangle_writes wit_v0 wit_v1 (1, 1) (0, 0) wit_dims ∧
      ((0 ≤ wit_write.x ∧ wit_write.x ≤ truncQ wit_dims.2 - 1 ∧
          0 ≤ wit_write.y ∧ wit_write.y ≤ truncQ wit_dims.1 - 1) ∧
        1 ≤ render_brx wit_v1 (1, 1) (0, 0) wit_dims + 1 -
            render_tlx wit_v0 (1, 1) (0, 0) ∧
        1 ≤ render_bry wit_v1 (1, 1) (0, 0) wit_dims + 1 -
            render_tly wit_v0 (1, 1) (0, 0)) :=
  ⟨Or.inr (by decide), Or.inr (by decide), by decide,
    render_rectangle_writes_safe wit_v0 wit_v1 (1, 1) (0, 0) wit_dims
      (Or.inr (by decide)) (Or.inr (by decide)) wit_write (by decide)⟩

unseal Rat.add Rat.mul Rat.inv Rat.sub in
/-- C10 as frozen is false for arbitrary inputs: with image dimensions
(300, 1/2) the allocated image has shape (300, 0, 3), yet the loop performs
a write with x = 0, which does not satisfy 0 ≤ x ≤ int(1/2) - 1 = -1. -/
theorem render_write_out_of_bounds :
    ∃ w ∈ render_rectangle_writes ⟨-150, -75, 1000⟩ ⟨150, 75, 1000⟩
        (300, 300) (0, 150) ((300 : ℚ), (1 : ℚ)/2),
      ¬(0 ≤ w.x ∧ w.x ≤ truncQ ((1 : ℚ)/2) - 1) := by decide

end CameraCalib
